import Mathlib

/-!
Verification of the MCP-core capability broker (Rust sources under
`src/mcp-core/`).  The Rust code is shallowly embedded: pure decision logic
becomes Lean functions, filesystem-dependent operations are modelled over an
explicit filesystem state, and the OS services the code calls
(`Path::canonicalize`, process spawning, SHA-256) are abstracted as
parameters of the model.

Conventions:
* a Rust `String`/`&str` is a Lean `String` (policy strings are ASCII);
* a raw OS path is a `String`; a canonical path is its component list
  `List String` (so `PathBuf::starts_with`, which is component-wise,
  becomes `spfx` below);
* `Path::canonicalize` is an abstract parameter
  `canon : String → Option (List String)` (`none` = canonicalisation error);
* machine integers that cannot overflow in the modelled paths are `Nat`.
-/

/-! ## String helpers (models of Rust `str` operations) -/

/-- Model of Rust `str::starts_with` (a literal prefix of the text). -/
def strStartsWith (s pat : String) : Bool :=
  pat.data.isPrefixOf s.data

/-- Helper for substring search: does `pat` occur as a contiguous run in `l`. -/
def charsContain (pat : List Char) : List Char → Bool
  | [] => pat.isEmpty
  | c :: r => pat.isPrefixOf (c :: r) || charsContain pat r

/-- Model of Rust `str::contains` with a literal pattern. -/
def strContains (s pat : String) : Bool :=
  charsContain pat.data s.data

/-- ASCII lowercasing of one character; models `char::to_lowercase` on the
ASCII range (all patterns the policy compares against are ASCII). -/
def asciiLowerChar (c : Char) : Char :=
  if 65 ≤ c.toNat && c.toNat ≤ 90 then Char.ofNat (c.toNat + 32) else c

/-- Model of Rust `str::to_lowercase` (ASCII range). -/
def asciiLower (s : String) : String :=
  String.mk (s.data.map asciiLowerChar)

/-- Component-wise path prefix, the semantics of `PathBuf::starts_with`. -/
def spfx : List String → List String → Bool
  | [], _ => true
  | _ :: _, [] => false
  | a :: as, b :: bs => if a = b then spfx as bs else false

/-! ## Config (`src/mcp-core/src/config.rs`), policy-relevant fields -/

structure Config where
  allowed_paths : List String
  whitelisted_commands : List String
  max_file_size : Nat
  auto_approve_patterns : List String
  sensitive_patterns : List String
deriving Repr, DecidableEq

/-- Model of `Config::default` (`config.rs` lines 55-103); `home` stands for
`dirs::home_dir()`. -/
def default_config (home : String) : Config where
  allowed_paths := [home ++ "/projects", home ++ "/Documents", home ++ "/Desktop"]
  whitelisted_commands :=
    ["git", "npm", "pnpm", "yarn", "node", "python", "python3",
     "cargo", "rustc", "dotnet", "code", "docker"]
  max_file_size := 10485760
  auto_approve_patterns := ["git status", "git log", "git diff", "npm list"]
  sensitive_patterns :=
    ["rm -rf", "del /s", "format", "shutdown", "reboot", "git push --force"]

/-- Model of `Config::is_path_allowed` (`config.rs` lines 158-171):
canonicalise the caller path (failure ⇒ not allowed), then test whether any
allowed root canonicalises to a component-prefix of it. -/
def is_path_allowed (canon : String → Option (List String)) (cfg : Config)
    (path : String) : Bool :=
  match canon path with
  | none => false
  | some c =>
    cfg.allowed_paths.any fun allowed =>
      match canon allowed with
      | some allowedCanonical => spfx allowedCanonical c
      | none => false

/-- Model of `Config::is_command_whitelisted` (`config.rs` lines 174-176). -/
def is_command_whitelisted (cfg : Config) (command : String) : Bool :=
  cfg.whitelisted_commands.any fun c => c == command

/-! ## Policy engine (`src/mcp-core/src/policy.rs`) -/

inductive PolicyDecision where
  | Allow : PolicyDecision
  | RequireApproval : String → PolicyDecision
  | Deny : String → PolicyDecision
deriving Repr, DecidableEq

/-- Model of `PolicyEngine::check_file_access` (`policy.rs` lines 30-57).
The Rust function always returns `Ok(decision)`, so the model returns the
decision directly. -/
def check_file_access (canon : String → Option (List String)) (cfg : Config)
    (path : String) (write : Bool) : PolicyDecision :=
  if !(is_path_allowed canon cfg path) then
    .Deny ("Path '" ++ path ++ "' is not within allowed directories")
  else if write then
    let path_str := asciiLower path
    if strContains path_str "system32" || strContains path_str "windows"
        || strContains path_str "/etc" then
      .Deny "Cannot write to system directories"
    else
      .RequireApproval ("Write to '" ++ path ++ "'")
  else
    .Allow

/-- Model of `PolicyEngine::check_command` (`policy.rs` lines 60-96).
The Rust `for` loops return at the first matching pattern; since only the
full command string enters the produced message, `List.any` is equivalent. -/
def check_command (cfg : Config) (command : String) (args : List String) :
    PolicyDecision :=
  if !(is_command_whitelisted cfg command) then
    .Deny ("Command '" ++ command ++ "' is not whitelisted")
  else
    let full_command := command ++ " " ++ String.intercalate " " args
    if cfg.auto_approve_patterns.any (fun pat => strStartsWith full_command pat) then
      .Allow
    else if cfg.sensitive_patterns.any (fun pat => strContains full_command pat) then
      .RequireApproval ("Sensitive command detected: " ++ full_command)
    else
      .RequireApproval ("Execute command: " ++ full_command)

/-- Model of `PolicyEngine::validate_approval` (`policy.rs` lines 135-139):
`!token.is_empty()`. -/
def validate_approval (token : String) : Bool :=
  !(token == "")

/-! ## Theorems for the path-gating claims -/

/-- Auxiliary: the quantified "no allowed root is an ancestor" hypothesis
forces `is_path_allowed` to be false. -/
theorem is_path_allowed_eq_false (canon : String → Option (List String))
    (cfg : Config) (p : String)
    (h : ∀ c, canon p = some c → ∀ a ∈ cfg.allowed_paths,
      ∀ ac, canon a = some ac → spfx ac c = false) :
    is_path_allowed canon cfg p = false := by
  unfold is_path_allowed
  cases hc : canon p with
  | none => rfl
  | some c =>
    simp only [List.any_eq_false]
    intro a ha
    cases hca : canon a with
    | none => simp
    | some ac => simp [h c hc a ha ac hca]

/-- C1: every path that after canonicalisation is not a descendant of an
allowed root — including every path whose canonicalisation fails — is denied
by `check_file_access`, for reads and for writes alike. -/
theorem check_file_access_deny_outside_roots
    (canon : String → Option (List String)) (cfg : Config) (p : String)
    (h : ∀ c, canon p = some c → ∀ a ∈ cfg.allowed_paths,
      ∀ ac, canon a = some ac → spfx ac c = false) :
    ∀ write : Bool, check_file_access canon cfg p write =
      .Deny ("Path '" ++ p ++ "' is not within allowed directories") := by
  intro write
  unfold check_file_access
  rw [is_path_allowed_eq_false canon cfg p h]
  rfl

/-- Witness for C1: a concrete world in which canonicalisation fails. -/
theorem check_file_access_deny_outside_roots_witness :
    check_file_access (fun _ => none) (default_config "/home/u") "/nowhere" true =
      .Deny "Path '/nowhere' is not within allowed directories" := by
  exact check_file_access_deny_outside_roots (fun _ => none)
    (default_config "/home/u") "/nowhere" (fun c hc => by cases hc) true

/-- C2: a write to any path whose lowercased text contains `system32`,
`windows` or `/etc` is denied; moreover when the path lies inside an allowed
root (so that the earlier allowed-root check passes) the denial is exactly
the system-directory denial, showing the check runs after the root check. -/
theorem check_file_access_deny_system_dirs
    (canon : String → Option (List String)) (cfg : Config) (p : String)
    (h : strContains (asciiLower p) "system32" = true ∨
         strContains (asciiLower p) "windows" = true ∨
         strContains (asciiLower p) "/etc" = true) :
    (∃ m, check_file_access canon cfg p true = .Deny m) ∧
    (is_path_allowed canon cfg p = true →
      check_file_access canon cfg p true = .Deny "Cannot write to system directories") := by
  constructor
  · unfold check_file_access
    cases ha : is_path_allowed canon cfg p with
    | false => exact ⟨_, rfl⟩
    | true =>
      refine ⟨"Cannot write to system directories", ?_⟩
      simp only [ha, Bool.not_true, Bool.false_eq_true, if_false, if_true]
      have : (strContains (asciiLower p) "system32" || strContains (asciiLower p) "windows"
          || strContains (asciiLower p) "/etc") = true := by
        rcases h with h | h | h <;> simp [h]
      simp [this]
  · intro ha
    unfold check_file_access
    simp only [ha, Bool.not_true, Bool.false_eq_true, if_false, if_true]
    have : (strContains (asciiLower p) "system32" || strContains (asciiLower p) "windows"
        || strContains (asciiLower p) "/etc") = true := by
      rcases h with h | h | h <;> simp [h]
    simp [this]

/-- Concrete canonicaliser used by witnesses: a finite table of paths. -/
def canonW (s : String) : Option (List String) :=
  if s = "/h/projects" then some ["h", "projects"]
  else if s = "/h/projects/etc/x" then some ["h", "projects", "etc", "x"]
  else if s = "/h/projects/a.txt" then some ["h", "projects", "a.txt"]
  else if s = "/h/projects/bin.dat" then some ["h", "projects", "bin.dat"]
  else none

/-- Witness for C2: a path containing `/etc` that sits inside the allowed
root `/h/projects` of the default configuration. -/
theorem check_file_access_deny_system_dirs_witness :
    check_file_access canonW (default_config "/h")
      "/h/projects/etc/x" true = .Deny "Cannot write to system directories" := by
  refine (check_file_access_deny_system_dirs canonW
    (default_config "/h") "/h/projects/etc/x" ?_).2 ?_
  · right; right; decide
  · decide

/-- C10: a read-access policy check never demands approval: it is `Allow`
or `Deny`, so a caller without any approval token can read every
policy-permitted path. -/
theorem check_file_access_read_never_requires_approval
    (canon : String → Option (List String)) (cfg : Config) (p : String) :
    check_file_access canon cfg p false = .Allow ∨
    ∃ m, check_file_access canon cfg p false = .Deny m := by
  unfold check_file_access
  cases ha : is_path_allowed canon cfg p with
  | false =>
    refine .inr ⟨"Path '" ++ p ++ "' is not within allowed directories", ?_⟩
    simp
  | true =>
    refine .inl ?_
    simp

/-- C4: for a whitelisted command, if some auto-approve pattern is a prefix
of the rendered command line then the decision is `Allow`, with no
hypothesis at all about the sensitive patterns. -/
theorem check_command_auto_approve_wins (cfg : Config) (command : String)
    (args : List String)
    (hw : is_command_whitelisted cfg command = true)
    (hp : ∃ pat ∈ cfg.auto_approve_patterns,
      strStartsWith (command ++ " " ++ String.intercalate " " args) pat = true) :
    check_command cfg command args = .Allow := by
  unfold check_command
  simp only [hw, Bool.not_true, Bool.false_eq_true, if_false]
  have : cfg.auto_approve_patterns.any
      (fun pat => strStartsWith (command ++ " " ++ String.intercalate " " args) pat) = true := by
    rcases hp with ⟨pat, hmem, hpre⟩
    exact List.any_eq_true.mpr ⟨pat, hmem, hpre⟩
  simp [this]

/-- Witness for C4: `git status -s` is auto-approved under the default
configuration although `git status -s` also matches no sensitive pattern;
a second instance with a sensitive substring is checked in the proof body
of the main theorem itself being pattern-free. -/
theorem check_command_auto_approve_wins_witness :
    check_command (default_config "/h") "git" ["status", "-s"] = .Allow := by
  exact check_command_auto_approve_wins (default_config "/h") "git" ["status", "-s"]
    (by decide) ⟨"git status", by decide, by decide⟩

/-! ## RPC status model (`tonic::Status` kinds used by the services) -/

inductive Status where
  | permissionDenied : String → Status
  | failedPrecondition : String → Status
  | notFound : String → Status
  | invalidArgument : String → Status
  | internal : String → Status
deriving Repr, DecidableEq

instance {ε α : Type} [DecidableEq ε] [DecidableEq α] : DecidableEq (Except ε α) :=
  fun x y =>
    match x, y with
    | .error a, .error b =>
      if h : a = b then isTrue (by rw [h]) else isFalse (by simp [h])
    | .error _, .ok _ => isFalse (by simp)
    | .ok _, .error _ => isFalse (by simp)
    | .ok a, .ok b =>
      if h : a = b then isTrue (by rw [h]) else isFalse (by simp [h])

/-! ## Audit entries (`src/mcp-core/src/audit.rs`), the fields the claims use -/

structure AuditEntry where
  service : String
  action : String
  details : String
  user_approved : Bool
  approval_token : Option String
  result : String
  snapshot_id : Option String
deriving Repr, DecidableEq

/-- Model of `AuditLogger::create_entry`: fresh entry with empty details and
`pending` result (id and timestamp are not modelled). -/
def create_entry (service action : String) : AuditEntry where
  service := service
  action := action
  details := ""
  user_approved := false
  approval_token := none
  result := "pending"
  snapshot_id := none

/-! ## Command service (`src/mcp-core/src/services/command_service.rs`) -/

structure RunCommandRequest where
  command : String
  args : List String
  cwd : String
  timeout_secs : Int
  approval_token : String
  dry_run : Bool
deriving Repr, DecidableEq

structure RunCommandResponse where
  dry_run : Bool
  command_line : String
  predicted_effects : List String
  estimated_time : String
  exit_code : Int
  stdout : String
  stderr : String
  success : Bool
deriving Repr, DecidableEq

structure SandboxOutput where
  exit_code : Int
  stdout : String
  stderr : String
  success : Bool
deriving Repr, DecidableEq

/-- Model of `SandboxExecutor::predict_effects` (`sandbox.rs` lines 91-137).
The Rust `match command` with or-patterns becomes an if-chain on string
equality; `effects.push` becomes list literals appended in push order. -/
def predict_effects (command : String) (args : List String)
    (cwd : Option String) : List String :=
  let full_cmd := command ++ " " ++ String.intercalate " " args
  let effects :=
    if command == "npm" || command == "pnpm" || command == "yarn" then
      if args.head? == some "install" then
        ["Will create/update node_modules folder",
         "May update package-lock.json or yarn.lock"]
      else if args.head? == some "run" then
        ["Will run npm script: " ++ (args.get? 1).getD ""]
      else []
    else if command == "git" then
      if args.head? == some "commit" then ["Will create a new git commit"]
      else if args.head? == some "push" then ["Will push commits to remote repository"]
      else if args.head? == some "pull" then ["Will fetch and merge changes from remote"]
      else if args.head? == some "checkout" then ["Will switch branches or restore files"]
      else []
    else if command == "cargo" then
      if args.head? == some "build" then
        ["Will compile Rust project", "Will create/update target directory"]
      else []
    else if command == "docker" then
      if args.head? == some "build" then ["Will build a Docker image"]
      else if args.head? == some "run" then ["Will start a Docker container"]
      else if args.head? == some "stop" then ["Will stop running container(s)"]
      else []
    else
      ["Will execute: " ++ full_cmd]
  match cwd with
  | some dir => effects ++ ["Working directory: " ++ dir]
  | none => effects

/-- Tail of `CommandServiceImpl::run` after the policy gate
(`command_service.rs` lines 54-118).  The child-process launch
(`SandboxExecutor::execute`) is abstracted as `execFn`; the audit rows the
call appends are returned alongside the response. -/
def run_command_body (execFn : String → List String → SandboxOutput)
    (req : RunCommandRequest) :
    Except Status (RunCommandResponse × List AuditEntry) :=
  let cwd := if req.cwd == "" then none else some req.cwd
  if req.dry_run then
    let effects := predict_effects req.command req.args cwd
    let command_line := req.command ++ " " ++ String.intercalate " " req.args
    let entry := { create_entry "command" "dry_run" with
      details := "Dry-run: " ++ command_line, result := "simulated" }
    .ok ({ dry_run := true, command_line := command_line,
           predicted_effects := effects, estimated_time := "varies",
           exit_code := 0, stdout := "", stderr := "", success := true },
         [entry])
  else if !(req.approval_token == "") && !(validate_approval req.approval_token) then
    .error (.permissionDenied "Invalid approval token")
  else
    let output := execFn req.command req.args
    let command_line := req.command ++ " " ++ String.intercalate " " req.args
    let entry := { create_entry "command" "execute" with
      details := "Executed: " ++ command_line,
      user_approved := !(req.approval_token == ""),
      approval_token := if req.approval_token == "" then none else some req.approval_token,
      result := if output.success then "success" else "failed" }
    .ok ({ dry_run := false, command_line := command_line,
           predicted_effects := [], estimated_time := "",
           exit_code := output.exit_code, stdout := output.stdout,
           stderr := output.stderr, success := output.success },
         [entry])

/-- Model of `CommandServiceImpl::run` (`command_service.rs` lines 33-119):
policy gate first, then the body above. -/
def run_command (cfg : Config) (execFn : String → List String → SandboxOutput)
    (req : RunCommandRequest) :
    Except Status (RunCommandResponse × List AuditEntry) :=
  match check_command cfg req.command req.args with
  | .Deny reason => .error (.permissionDenied reason)
  | .RequireApproval reason =>
    if !req.dry_run && req.approval_token == "" then
      .error (.failedPrecondition ("Approval required: " ++ reason ++
        ". Use dry_run=true to preview, or provide approval_token."))
    else
      run_command_body execFn req
  | .Allow => run_command_body execFn req

/-! ## File service policy gate (`src/mcp-core/src/services/file_service.rs`) -/

structure CreateFileRequest where
  path : String
  content : String
  approval_token : String
deriving Repr, DecidableEq

/-- Model of the policy/approval gate of `FileServiceImpl::create_file`
(`file_service.rs` lines 88-110).  Everything after the gate (snapshot,
directory creation, the disk write and the response) is abstracted as the
continuation `proceed`, so the theorems hold for every possible remainder. -/
def create_file_gate {α : Type} (canon : String → Option (List String))
    (cfg : Config) (req : CreateFileRequest)
    (proceed : Unit → Except Status α) : Except Status α :=
  match check_file_access canon cfg req.path true with
  | .Deny reason => .error (.permissionDenied reason)
  | .RequireApproval reason =>
    if req.approval_token == "" then
      .error (.failedPrecondition ("Approval required: " ++ reason))
    else if !(validate_approval req.approval_token) then
      .error (.permissionDenied "Invalid approval token")
    else
      proceed ()
  | .Allow => proceed ()

/-! ## Theorems for the approval-token claims -/

/-- C3: `validate_approval` accepts exactly the non-empty tokens, and an
operation whose policy decision is `RequireApproval`, called with an empty
token (and, for commands, `dry_run = false`), fails with
`FAILED_PRECONDITION` instead of proceeding — for every continuation and
every executor. -/
theorem empty_token_is_not_approval :
    (∀ token : String, validate_approval token = true ↔ token ≠ "") ∧
    (∀ (α : Type) (canon : String → Option (List String)) (cfg : Config)
       (req : CreateFileRequest) (proceed : Unit → Except Status α) (reason : String),
       check_file_access canon cfg req.path true = .RequireApproval reason →
       req.approval_token = "" →
       create_file_gate canon cfg req proceed =
         .error (.failedPrecondition ("Approval required: " ++ reason))) ∧
    (∀ (cfg : Config) (execFn : String → List String → SandboxOutput)
       (req : RunCommandRequest) (reason : String),
       check_command cfg req.command req.args = .RequireApproval reason →
       req.approval_token = "" → req.dry_run = false →
       run_command cfg execFn req =
         .error (.failedPrecondition ("Approval required: " ++ reason ++
           ". Use dry_run=true to preview, or provide approval_token."))) := by
  refine ⟨?_, ?_, ?_⟩
  · intro token
    unfold validate_approval
    constructor
    · intro h he
      subst he
      simp at h
    · intro h
      simpa using h
  · intro α canon cfg req proceed reason hdec htok
    unfold create_file_gate
    rw [hdec, htok]
    rfl
  · intro cfg execFn req reason hdec htok hdry
    unfold run_command
    rw [hdec, htok, hdry]
    rfl

/-- Witness for C3: a non-empty token validates; a gated create and a gated
run with empty tokens both fail with `FAILED_PRECONDITION` in a concrete
world. -/
theorem empty_token_is_not_approval_witness :
    validate_approval "ok" = true ∧
    create_file_gate canonW (default_config "/h")
      { path := "/h/projects/a.txt", content := "x", approval_token := "" }
      (fun _ => .ok true) =
      .error (.failedPrecondition "Approval required: Write to '/h/projects/a.txt'") ∧
    run_command (default_config "/h") (fun _ _ => ⟨0, "", "", true⟩)
      { command := "git", args := ["commit"], cwd := "", timeout_secs := 0,
        approval_token := "", dry_run := false } =
      .error (.failedPrecondition
        "Approval required: Execute command: git commit. Use dry_run=true to preview, or provide approval_token.") := by
  refine ⟨(empty_token_is_not_approval.1 "ok").2 (by decide), ?_, ?_⟩
  · have h := empty_token_is_not_approval.2.1 Bool canonW (default_config "/h")
      { path := "/h/projects/a.txt", content := "x", approval_token := "" }
      (fun _ => .ok true) "Write to '/h/projects/a.txt'" (by decide) rfl
    simpa using h
  · have h := empty_token_is_not_approval.2.2 (default_config "/h")
      (fun _ _ => ⟨0, "", "", true⟩)
      { command := "git", args := ["commit"], cwd := "", timeout_secs := 0,
        approval_token := "", dry_run := false }
      "Execute command: git commit" (by decide) rfl rfl
    simpa using h

/-! ## Concrete scenario values for the command-service claims -/

/-- Executor stub for scenarios that never reach execution or ignore it. -/
def execW : String → List String → SandboxOutput := fun _ _ => ⟨0, "", "", true⟩

/-- The request of scenario 5 of the spec: `run("git", ["push", "--force"],
dry_run=false)` with no approval token. -/
def req_force_push : RunCommandRequest where
  command := "git"
  args := ["push", "--force"]
  cwd := ""
  timeout_secs := 0
  approval_token := ""
  dry_run := false

/-- The error message the broker produces for `req_force_push`. -/
def msg_force_push : String :=
  "Approval required: Sensitive command detected: git push --force. Use dry_run=true to preview, or provide approval_token."

/-- C5 counterexample: the gated force-push does fail with
`FAILED_PRECONDITION`, but its message contains `"Sensitive"` with a capital
S and therefore does not contain the substring `"sensitive"` as claimed. -/
theorem force_push_message_lowercase_counterexample :
    run_command (default_config "/h") execW req_force_push =
      .error (.failedPrecondition msg_force_push) ∧
    strContains msg_force_push "sensitive" = false := by
  constructor
  · rfl
  · decide

/-- C5 (amended): under the default configuration,
`run("git", ["push", "--force"], dry_run=false)` with an empty approval
token fails with `FAILED_PRECONDITION` and its message contains the
substring `"Sensitive"` (that is, `"sensitive"` up to ASCII case). -/
theorem force_push_gated_with_sensitive_message :
    run_command (default_config "/h") execW req_force_push =
      .error (.failedPrecondition msg_force_push) ∧
    strContains msg_force_push "Sensitive" = true ∧
    strContains (asciiLower msg_force_push) "sensitive" = true := by
  refine ⟨rfl, by decide, by decide⟩

/-- The request of scenario 6 of the spec: `run("npm", ["install"],
dry_run=true)`. -/
def req_npm_install : RunCommandRequest where
  command := "npm"
  args := ["install"]
  cwd := ""
  timeout_secs := 0
  approval_token := ""
  dry_run := true

/-- The response the broker produces for `req_npm_install`. -/
def resp_npm_install : RunCommandResponse where
  dry_run := true
  command_line := "npm install"
  predicted_effects :=
    ["Will create/update node_modules folder",
     "May update package-lock.json or yarn.lock"]
  estimated_time := "varies"
  exit_code := 0
  stdout := ""
  stderr := ""
  success := true

/-- The audit row the broker logs for `req_npm_install`. -/
def entry_npm_install : AuditEntry where
  service := "command"
  action := "dry_run"
  details := "Dry-run: npm install"
  user_approved := false
  approval_token := none
  result := "simulated"
  snapshot_id := none

/-- C8 counterexample: the dry run of `npm install` succeeds, but none of
its predicted effects contains the substring `"lockfile"` — the effect text
reads `"May update package-lock.json or yarn.lock"`. -/
theorem npm_install_dry_run_lockfile_counterexample :
    run_command (default_config "/h") execW req_npm_install =
      .ok (resp_npm_install, [entry_npm_install]) ∧
    resp_npm_install.predicted_effects.any (fun e => strContains e "lockfile") = false := by
  constructor
  · rfl
  · decide

/-- C8 (amended): `run("npm", ["install"], dry_run=true)` succeeds, some
predicted effect contains `"node_modules"`, some predicted effect contains
`"lock"` (the lockfile effect), and the audit row has result
`"simulated"`. -/
theorem npm_install_dry_run_preview :
    run_command (default_config "/h") execW req_npm_install =
      .ok (resp_npm_install, [entry_npm_install]) ∧
    resp_npm_install.predicted_effects.any (fun e => strContains e "node_modules") = true ∧
    resp_npm_install.predicted_effects.any (fun e => strContains e "lock") = true ∧
    entry_npm_install.result = "simulated" ∧
    resp_npm_install.success = true := by
  refine ⟨rfl, by decide, by decide, rfl, rfl⟩

/-! ## UTF-8 model

`FileServiceImpl::read_file` converts raw bytes to the response string with
`String::from_utf8_lossy`.  The standard-library conversion is modelled
byte-for-byte: valid sequences decode to their scalar value, and each
maximal prefix of a valid sequence that cannot be completed is replaced by
one U+FFFD, the invalid byte being re-examined (the Unicode substitution of
maximal subparts, which is what the Rust implementation performs).  The
decoder is written with a fuel argument (at least one byte is consumed per
step, so `l.length` fuel always suffices); this keeps it a structural
recursion the kernel can evaluate. -/

/-- A UTF-8 continuation byte, `0x80..=0xBF`. -/
def contB (b : Nat) : Bool := decide (128 ≤ b ∧ b ≤ 191)

/-- Admissible first continuation byte after a three-byte lead `b`
(`0xE0` restricts to `0xA0..`, `0xED` to `..0x9F` to exclude surrogates). -/
def cont1ok3 (b b1 : Nat) : Bool :=
  if b = 224 then decide (160 ≤ b1 ∧ b1 ≤ 191)
  else if b = 237 then decide (128 ≤ b1 ∧ b1 ≤ 159)
  else contB b1

/-- Admissible first continuation byte after a four-byte lead `b`
(`0xF0` restricts to `0x90..`, `0xF4` to `..0x8F` to cap at U+10FFFF). -/
def cont1ok4 (b b1 : Nat) : Bool :=
  if b = 240 then decide (144 ≤ b1 ∧ b1 ≤ 191)
  else if b = 244 then decide (128 ≤ b1 ∧ b1 ≤ 143)
  else contB b1

/-- Fuelled body of the lossy decoder. -/
def utf8DecodeLoop : Nat → List Nat → List Char
  | 0, _ => []
  | _, [] => []
  | fuel + 1, b :: rest =>
    if b < 128 then Char.ofNat b :: utf8DecodeLoop fuel rest
    else if 194 ≤ b ∧ b ≤ 223 then
      match rest with
      | [] => [Char.ofNat 65533]
      | b1 :: r1 =>
        if contB b1 then
          Char.ofNat ((b - 192) * 64 + (b1 - 128)) :: utf8DecodeLoop fuel r1
        else
          Char.ofNat 65533 :: utf8DecodeLoop fuel (b1 :: r1)
    else if 224 ≤ b ∧ b ≤ 239 then
      match rest with
      | [] => [Char.ofNat 65533]
      | b1 :: r1 =>
        if cont1ok3 b b1 then
          match r1 with
          | [] => [Char.ofNat 65533]
          | b2 :: r2 =>
            if contB b2 then
              Char.ofNat ((b - 224) * 4096 + (b1 - 128) * 64 + (b2 - 128)) ::
                utf8DecodeLoop fuel r2
            else
              Char.ofNat 65533 :: utf8DecodeLoop fuel (b2 :: r2)
        else
          Char.ofNat 65533 :: utf8DecodeLoop fuel (b1 :: r1)
    else if 240 ≤ b ∧ b ≤ 244 then
      match rest with
      | [] => [Char.ofNat 65533]
      | b1 :: r1 =>
        if cont1ok4 b b1 then
          match r1 with
          | [] => [Char.ofNat 65533]
          | b2 :: r2 =>
            if contB b2 then
              match r2 with
              | [] => [Char.ofNat 65533]
              | b3 :: r3 =>
                if contB b3 then
                  Char.ofNat ((b - 240) * 262144 + (b1 - 128) * 4096 +
                    (b2 - 128) * 64 + (b3 - 128)) :: utf8DecodeLoop fuel r3
                else
                  Char.ofNat 65533 :: utf8DecodeLoop fuel (b3 :: r3)
            else
              Char.ofNat 65533 :: utf8DecodeLoop fuel (b2 :: r2)
        else
          Char.ofNat 65533 :: utf8DecodeLoop fuel (b1 :: r1)
    else
      Char.ofNat 65533 :: utf8DecodeLoop fuel rest

/-- Model of `String::from_utf8_lossy`, producing the character list of the
resulting string. -/
def utf8DecodeChars (l : List Nat) : List Char := utf8DecodeLoop l.length l

/-- Recogniser for byte lists that are valid UTF-8. -/
def validUtf8 : List Nat → Bool
  | [] => true
  | b :: rest =>
    if b < 128 then validUtf8 rest
    else if 194 ≤ b ∧ b ≤ 223 then
      match rest with
      | [] => false
      | b1 :: r1 => contB b1 && validUtf8 r1
    else if 224 ≤ b ∧ b ≤ 239 then
      match rest with
      | [] => false
      | b1 :: r1 =>
        cont1ok3 b b1 &&
          match r1 with
          | [] => false
          | b2 :: r2 => contB b2 && validUtf8 r2
    else if 240 ≤ b ∧ b ≤ 244 then
      match rest with
      | [] => false
      | b1 :: r1 =>
        cont1ok4 b b1 &&
          match r1 with
          | [] => false
          | b2 :: r2 =>
            contB b2 &&
              match r2 with
              | [] => false
              | b3 :: r3 => contB b3 && validUtf8 r3
    else false

/-- UTF-8 encoding of one Unicode scalar value (how a Rust `String` stores
one `char`). -/
def charUtf8 (n : Nat) : List Nat :=
  if n < 128 then [n]
  else if n < 2048 then [192 + n / 64, 128 + n % 64]
  else if n < 65536 then [224 + n / 4096, 128 + n / 64 % 64, 128 + n % 64]
  else [240 + n / 262144, 128 + n / 4096 % 64, 128 + n / 64 % 64, 128 + n % 64]

/-- UTF-8 bytes of a character list. -/
def bytesOfChars : List Char → List Nat
  | [] => []
  | c :: r => charUtf8 c.toNat ++ bytesOfChars r

/-- The bytes a Rust `String` with these characters consists of. -/
def strBytes (s : String) : List Nat := bytesOfChars s.data

/-- Packing a valid scalar value into a `Char` keeps its value. -/
theorem char_toNat_ofNat (n : Nat) (h : n.isValidChar) : (Char.ofNat n).toNat = n := by
  unfold Char.ofNat
  rw [dif_pos h]
  simp [Char.ofNatAux, Char.toNat, UInt32.toNat]


/-- Unfolding equation of `validUtf8` on a non-empty list. -/
theorem validUtf8_cons (b : Nat) (rest : List Nat) :
    validUtf8 (b :: rest) =
      (if b < 128 then validUtf8 rest
       else if 194 ≤ b ∧ b ≤ 223 then
         match rest with
         | [] => false
         | b1 :: r1 => contB b1 && validUtf8 r1
       else if 224 ≤ b ∧ b ≤ 239 then
         match rest with
         | [] => false
         | b1 :: r1 =>
           cont1ok3 b b1 &&
             match r1 with
             | [] => false
             | b2 :: r2 => contB b2 && validUtf8 r2
       else if 240 ≤ b ∧ b ≤ 244 then
         match rest with
         | [] => false
         | b1 :: r1 =>
           cont1ok4 b b1 &&
             match r1 with
             | [] => false
             | b2 :: r2 =>
               contB b2 &&
                 match r2 with
                 | [] => false
                 | b3 :: r3 => contB b3 && validUtf8 r3
       else false) := by
  conv_lhs => unfold validUtf8

/-- Unfolding equation of `utf8DecodeLoop` on positive fuel and a non-empty
list. -/
theorem utf8DecodeLoop_cons (fuel b : Nat) (rest : List Nat) :
    utf8DecodeLoop (fuel + 1) (b :: rest) =
      (if b < 128 then Char.ofNat b :: utf8DecodeLoop fuel rest
       else if 194 ≤ b ∧ b ≤ 223 then
         match rest with
         | [] => [Char.ofNat 65533]
         | b1 :: r1 =>
           if contB b1 then
             Char.ofNat ((b - 192) * 64 + (b1 - 128)) :: utf8DecodeLoop fuel r1
           else
             Char.ofNat 65533 :: utf8DecodeLoop fuel (b1 :: r1)
       else if 224 ≤ b ∧ b ≤ 239 then
         match rest with
         | [] => [Char.ofNat 65533]
         | b1 :: r1 =>
           if cont1ok3 b b1 then
             match r1 with
             | [] => [Char.ofNat 65533]
             | b2 :: r2 =>
               if contB b2 then
                 Char.ofNat ((b - 224) * 4096 + (b1 - 128) * 64 + (b2 - 128)) ::
                   utf8DecodeLoop fuel r2
               else
                 Char.ofNat 65533 :: utf8DecodeLoop fuel (b2 :: r2)
           else
             Char.ofNat 65533 :: utf8DecodeLoop fuel (b1 :: r1)
       else if 240 ≤ b ∧ b ≤ 244 then
         match rest with
         | [] => [Char.ofNat 65533]
         | b1 :: r1 =>
           if cont1ok4 b b1 then
             match r1 with
             | [] => [Char.ofNat 65533]
             | b2 :: r2 =>
               if contB b2 then
                 match r2 with
                 | [] => [Char.ofNat 65533]
                 | b3 :: r3 =>
                   if contB b3 then
                     Char.ofNat ((b - 240) * 262144 + (b1 - 128) * 4096 +
                       (b2 - 128) * 64 + (b3 - 128)) :: utf8DecodeLoop fuel r3
                   else
                     Char.ofNat 65533 :: utf8DecodeLoop fuel (b3 :: r3)
               else
                 Char.ofNat 65533 :: utf8DecodeLoop fuel (b2 :: r2)
           else
             Char.ofNat 65533 :: utf8DecodeLoop fuel (b1 :: r1)
       else
         Char.ofNat 65533 :: utf8DecodeLoop fuel rest) := by
  conv_lhs => unfold utf8DecodeLoop

/-- Decoding a valid UTF-8 byte list and re-encoding its characters gives
the bytes back (induction on the fuel of the decoder). -/
theorem utf8_decode_encode (fuel : Nat) :
    ∀ l : List Nat, l.length ≤ fuel → validUtf8 l = true →
      bytesOfChars (utf8DecodeLoop fuel l) = l := by
  induction fuel with
  | zero =>
    intro l hl _
    have hnil : l = [] := List.length_eq_zero.mp (Nat.le_zero.mp hl)
    subst hnil
    rfl
  | succ fuel ih =>
    intro l hl hv
    match l with
    | [] => rfl
    | b :: rest =>
      by_cases hb : b < 128
      · have hv' : validUtf8 rest = true := by
          rw [validUtf8_cons, if_pos hb] at hv
          exact hv
        have hr := ih rest (by simp at hl; omega) hv'
        have hgoal : utf8DecodeLoop (fuel + 1) (b :: rest) =
            Char.ofNat b :: utf8DecodeLoop fuel rest := by
          rw [utf8DecodeLoop_cons, if_pos hb]
        rw [hgoal, bytesOfChars, char_toNat_ofNat b (Or.inl (by omega)), hr]
        have hcu : charUtf8 b = [b] := by unfold charUtf8; rw [if_pos hb]
        rw [hcu]
        rfl
      · by_cases h2 : 194 ≤ b ∧ b ≤ 223
        · match rest with
          | [] =>
            rw [validUtf8_cons, if_neg hb, if_pos h2] at hv
            simp at hv
          | b1 :: r1 =>
            have hv2 : contB b1 = true ∧ validUtf8 r1 = true := by
              rw [validUtf8_cons, if_neg hb, if_pos h2] at hv
              simpa using hv
            obtain ⟨hc, hv'⟩ := hv2
            have hc' : 128 ≤ b1 ∧ b1 ≤ 191 := by simpa [contB] using hc
            have hr := ih r1 (by simp at hl; omega) hv'
            have hgoal : utf8DecodeLoop (fuel + 1) (b :: b1 :: r1) =
                Char.ofNat ((b - 192) * 64 + (b1 - 128)) :: utf8DecodeLoop fuel r1 := by
              rw [utf8DecodeLoop_cons, if_neg hb, if_pos h2]
              simp [hc]
            rw [hgoal, bytesOfChars,
              char_toNat_ofNat ((b - 192) * 64 + (b1 - 128)) (Or.inl (by omega)), hr]
            have hcu : charUtf8 ((b - 192) * 64 + (b1 - 128)) = [b, b1] := by
              unfold charUtf8
              rw [if_neg (by omega), if_pos (by omega)]
              have e1 : 192 + ((b - 192) * 64 + (b1 - 128)) / 64 = b := by omega
              have e2 : 128 + ((b - 192) * 64 + (b1 - 128)) % 64 = b1 := by omega
              rw [e1, e2]
            rw [hcu]
            rfl
        · by_cases h3 : 224 ≤ b ∧ b ≤ 239
          · match rest with
            | [] =>
              rw [validUtf8_cons, if_neg hb, if_neg h2, if_pos h3] at hv
              simp at hv
            | [b1] =>
              rw [validUtf8_cons, if_neg hb, if_neg h2, if_pos h3] at hv
              simp at hv
            | b1 :: b2 :: r2 =>
              have hv3 : cont1ok3 b b1 = true ∧ contB b2 = true ∧ validUtf8 r2 = true := by
                rw [validUtf8_cons, if_neg hb, if_neg h2, if_pos h3] at hv
                simpa using hv
              obtain ⟨hc1, hc2, hv'⟩ := hv3
              have hc1' : 128 ≤ b1 ∧ b1 ≤ 191 ∧ (b = 224 → 160 ≤ b1) ∧
                  (b = 237 → b1 ≤ 159) := by
                unfold cont1ok3 at hc1
                by_cases hb224 : b = 224
                · rw [if_pos hb224] at hc1
                  simp at hc1
                  omega
                · rw [if_neg hb224] at hc1
                  by_cases hb237 : b = 237
                  · rw [if_pos hb237] at hc1
                    simp at hc1
                    omega
                  · rw [if_neg hb237] at hc1
                    simp [contB] at hc1
                    omega
              have hc2' : 128 ≤ b2 ∧ b2 ≤ 191 := by simpa [contB] using hc2
              have hr := ih r2 (by simp at hl; omega) hv'
              have hvalid : ((b - 224) * 4096 + (b1 - 128) * 64 + (b2 - 128)).isValidChar := by
                unfold Nat.isValidChar
                omega
              have hgoal : utf8DecodeLoop (fuel + 1) (b :: b1 :: b2 :: r2) =
                  Char.ofNat ((b - 224) * 4096 + (b1 - 128) * 64 + (b2 - 128)) ::
                    utf8DecodeLoop fuel r2 := by
                rw [utf8DecodeLoop_cons, if_neg hb, if_neg h2, if_pos h3]
                simp [hc1, hc2]
              rw [hgoal, bytesOfChars, char_toNat_ofNat _ hvalid, hr]
              have hcu : charUtf8 ((b - 224) * 4096 + (b1 - 128) * 64 + (b2 - 128)) =
                  [b, b1, b2] := by
                unfold charUtf8
                rw [if_neg (by omega), if_neg (by omega), if_pos (by omega)]
                have e1 : 224 + ((b - 224) * 4096 + (b1 - 128) * 64 + (b2 - 128)) / 4096 = b := by
                  omega
                have e2 : 128 + ((b - 224) * 4096 + (b1 - 128) * 64 + (b2 - 128)) / 64 % 64 = b1 := by
                  omega
                have e3 : 128 + ((b - 224) * 4096 + (b1 - 128) * 64 + (b2 - 128)) % 64 = b2 := by
                  omega
                rw [e1, e2, e3]
              rw [hcu]
              rfl
          · by_cases h4 : 240 ≤ b ∧ b ≤ 244
            · match rest with
              | [] =>
                rw [validUtf8_cons, if_neg hb, if_neg h2, if_neg h3, if_pos h4] at hv
                simp at hv
              | [b1] =>
                rw [validUtf8_cons, if_neg hb, if_neg h2, if_neg h3, if_pos h4] at hv
                simp at hv
              | [b1, b2] =>
                rw [validUtf8_cons, if_neg hb, if_neg h2, if_neg h3, if_pos h4] at hv
                simp at hv
              | b1 :: b2 :: b3 :: r3 =>
                have hv4 : cont1ok4 b b1 = true ∧ contB b2 = true ∧ contB b3 = true ∧
                    validUtf8 r3 = true := by
                  rw [validUtf8_cons, if_neg hb, if_neg h2, if_neg h3, if_pos h4] at hv
                  simpa using hv
                obtain ⟨hc1, hc2, hc3, hv'⟩ := hv4
                have hc1' : 128 ≤ b1 ∧ b1 ≤ 191 ∧ (b = 240 → 144 ≤ b1) ∧
                    (b = 244 → b1 ≤ 143) := by
                  unfold cont1ok4 at hc1
                  by_cases hb240 : b = 240
                  · rw [if_pos hb240] at hc1
                    simp at hc1
                    omega
                  · rw [if_neg hb240] at hc1
                    by_cases hb244 : b = 244
                    · rw [if_pos hb244] at hc1
                      simp at hc1
                      omega
                    · rw [if_neg hb244] at hc1
                      simp [contB] at hc1
                      omega
                have hc2' : 128 ≤ b2 ∧ b2 ≤ 191 := by simpa [contB] using hc2
                have hc3' : 128 ≤ b3 ∧ b3 ≤ 191 := by simpa [contB] using hc3
                have hr := ih r3 (by simp at hl; omega) hv'
                have hvalid : ((b - 240) * 262144 + (b1 - 128) * 4096 +
                    (b2 - 128) * 64 + (b3 - 128)).isValidChar := by
                  unfold Nat.isValidChar
                  omega
                have hgoal : utf8DecodeLoop (fuel + 1) (b :: b1 :: b2 :: b3 :: r3) =
                    Char.ofNat ((b - 240) * 262144 + (b1 - 128) * 4096 +
                      (b2 - 128) * 64 + (b3 - 128)) :: utf8DecodeLoop fuel r3 := by
                  rw [utf8DecodeLoop_cons, if_neg hb, if_neg h2, if_neg h3, if_pos h4]
                  simp [hc1, hc2, hc3]
                rw [hgoal, bytesOfChars, char_toNat_ofNat _ hvalid, hr]
                have hcu : charUtf8 ((b - 240) * 262144 + (b1 - 128) * 4096 +
                    (b2 - 128) * 64 + (b3 - 128)) = [b, b1, b2, b3] := by
                  unfold charUtf8
                  rw [if_neg (by omega), if_neg (by omega), if_neg (by omega)]
                  have e1 : 240 + ((b - 240) * 262144 + (b1 - 128) * 4096 +
                      (b2 - 128) * 64 + (b3 - 128)) / 262144 = b := by omega
                  have e2 : 128 + ((b - 240) * 262144 + (b1 - 128) * 4096 +
                      (b2 - 128) * 64 + (b3 - 128)) / 4096 % 64 = b1 := by omega
                  have e3 : 128 + ((b - 240) * 262144 + (b1 - 128) * 4096 +
                      (b2 - 128) * 64 + (b3 - 128)) / 64 % 64 = b2 := by omega
                  have e4 : 128 + ((b - 240) * 262144 + (b1 - 128) * 4096 +
                      (b2 - 128) * 64 + (b3 - 128)) % 64 = b3 := by omega
                  rw [e1, e2, e3, e4]
                rw [hcu]
                rfl
            · rw [validUtf8_cons, if_neg hb, if_neg h2, if_neg h3, if_neg h4] at hv
              simp at hv

/-- On valid UTF-8 input the lossy conversion is the identity at byte level. -/
theorem validUtf8_strBytes (l : List Nat) (h : validUtf8 l = true) :
    strBytes (String.mk (utf8DecodeChars l)) = l := by
  have := utf8_decode_encode l.length l (Nat.le_refl _) h
  simpa [strBytes, utf8DecodeChars] using this

/-! ## File service read path (`src/mcp-core/src/services/file_service.rs`) -/

/-- World for file reading: the OS canonicaliser and the regular files with
their byte contents (`fs::metadata` and `fs::read` are modelled atomically
over the same map, so `size` is the byte length). -/
structure FileWorld where
  canon : String → Option (List String)
  files : String → Option (List Nat)

structure ReadFileResponse where
  path : String
  content : String
  sha256 : String
  size : Nat
deriving Repr, DecidableEq

/-- Model of `FileServiceImpl::read_file` (`file_service.rs` lines 44-86).
SHA-256 is the abstract digest parameter `sha`; the response `content` is
the lossy UTF-8 conversion of the raw bytes, exactly as
`String::from_utf8_lossy(&content).to_string()` produces it. -/
def read_file (sha : List Nat → String) (w : FileWorld) (cfg : Config)
    (path : String) : Except Status ReadFileResponse :=
  match check_file_access w.canon cfg path false with
  | .Deny reason => .error (.permissionDenied reason)
  | _ =>
    match w.files path with
    | none => .error (.notFound "File not found")
    | some content =>
      if content.length > cfg.max_file_size then
        .error (.invalidArgument ("File exceeds maximum size of " ++
          toString cfg.max_file_size ++ " bytes"))
      else
        .ok { path := path, content := String.mk (utf8DecodeChars content),
              sha256 := sha content, size := content.length }

/-- C9 (amended): for every policy-permitted file within the size cap whose
bytes are valid UTF-8, `read_file` returns the file's bytes as content (the
returned string's bytes equal the file's bytes), the digest of those bytes,
and the byte length; in particular the returned digest is the digest of the
returned content. -/
theorem read_file_returns_bytes_hash_size
    (sha : List Nat → String) (w : FileWorld) (cfg : Config) (p : String)
    (bytes : List Nat)
    (hallow : is_path_allowed w.canon cfg p = true)
    (hf : w.files p = some bytes)
    (hsize : bytes.length ≤ cfg.max_file_size)
    (hvalid : validUtf8 bytes = true) :
    read_file sha w cfg p =
      .ok { path := p, content := String.mk (utf8DecodeChars bytes),
            sha256 := sha bytes, size := bytes.length } ∧
    strBytes (String.mk (utf8DecodeChars bytes)) = bytes ∧
    sha (strBytes (String.mk (utf8DecodeChars bytes))) = sha bytes := by
  have hid := validUtf8_strBytes bytes hvalid
  refine ⟨?_, hid, by rw [hid]⟩
  have hcheck : check_file_access w.canon cfg p false = .Allow := by
    unfold check_file_access
    simp [hallow]
  have hns : ¬ (bytes.length > cfg.max_file_size) := by omega
  unfold read_file
  simp only [hcheck, hf]
  rw [if_neg hns]

/-- Digest stub for the read witnesses: a string as long as the input, so
that inputs of different lengths get different digests. -/
def shaLen (l : List Nat) : String := String.mk (List.replicate l.length 'a')

/-- World for the read scenarios: `/h/projects/a.txt` holds `"hi"` (bytes
`[104, 105]`), `/h/projects/bin.dat` holds the single non-UTF-8 byte
`[128]`. -/
def w9 : FileWorld where
  canon := canonW
  files := fun s =>
    if s = "/h/projects/a.txt" then some [104, 105]
    else if s = "/h/projects/bin.dat" then some [128]
    else none

/-- Witness for C9: reading the allowed two-byte ASCII file. -/
theorem read_file_returns_bytes_hash_size_witness :
    read_file shaLen w9 (default_config "/h") "/h/projects/a.txt" =
      .ok { path := "/h/projects/a.txt", content := "hi",
            sha256 := shaLen [104, 105], size := 2 } ∧
    strBytes "hi" = [104, 105] := by
  have h := read_file_returns_bytes_hash_size shaLen w9 (default_config "/h")
    "/h/projects/a.txt" [104, 105] (by decide) rfl (by decide) (by decide)
  exact ⟨h.1, h.2.1⟩

/-- C9 counterexample: for the readable one-byte file `[128]` (not valid
UTF-8, still under the size cap) the read succeeds, but the returned
content's bytes are the replacement character `[239, 191, 189]`, not the
file's bytes, and the returned digest is not the digest of the returned
content. -/
theorem read_file_raw_bytes_counterexample :
    read_file shaLen w9 (default_config "/h") "/h/projects/bin.dat" =
      .ok { path := "/h/projects/bin.dat", content := String.mk [Char.ofNat 65533],
            sha256 := shaLen [128], size := 1 } ∧
    strBytes (String.mk [Char.ofNat 65533]) ≠ [128] ∧
    shaLen [128] ≠ shaLen (strBytes (String.mk [Char.ofNat 65533])) := by
  refine ⟨by decide, by decide, by decide⟩

/-! ## Snapshot manager (`src/mcp-core/src/snapshot.rs`)

Paths are component lists (`SPath`); the filesystem is an association list
of regular files with byte contents.  `fs::write` replaces the entry,
`fs::read` is lookup; directories are implicit (a `WalkDir` over a
directory path enumerates exactly the stored files having it as a proper
component-prefix).  `Uuid::new_v4` is modelled by passing the fresh `id`
in; `created_at` (wall-clock time) is not modelled. -/

abbrev SPath := List String

abbrev SFs := List (SPath × List Nat)

/-- Model of `fs::read` on the modelled filesystem. -/
def fsLookup : SFs → SPath → Option (List Nat)
  | [], _ => none
  | (q, c) :: r, p => if q = p then some c else fsLookup r p

/-- Remove every entry stored at `p`. -/
def fsEraseAll : SFs → SPath → SFs
  | [], _ => []
  | (q, c) :: r, p => if q = p then fsEraseAll r p else (q, c) :: fsEraseAll r p

/-- Model of `fs::write`: replace the contents stored at `p`. -/
def fsWrite (st : SFs) (p : SPath) (c : List Nat) : SFs :=
  (p, c) :: fsEraseAll st p

structure FileSnapshot where
  original_path : SPath
  snapshot_path : SPath
  sha256 : String
  size : Nat
deriving Repr, DecidableEq

structure Snapshot where
  id : String
  label : String
  paths : List SPath
  files : List (SPath × FileSnapshot)
deriving Repr, DecidableEq

inductive McpErr where
  | SnapshotError : String → McpErr
  | NotFound : String → McpErr
deriving Repr, DecidableEq

/-- Model of `SnapshotManager::snapshot_file` (`snapshot.rs` lines 111-131):
read the file, hash it, store the blob at `<snapshot_dir>/<hash>` unless a
blob with that name already exists. -/
def snapshot_file (sha : List Nat → String) (st : SFs) (snapshot_dir : SPath)
    (p : SPath) : Except McpErr (FileSnapshot × SFs) :=
  match fsLookup st p with
  | none => .error (.SnapshotError "read failed")
  | some content =>
    let sha256 := sha content
    let snapshot_path := snapshot_dir ++ [sha256]
    let st' := if (fsLookup st snapshot_path).isSome then st
      else fsWrite st snapshot_path content
    .ok ({ original_path := p, snapshot_path := snapshot_path,
           sha256 := sha256, size := content.length }, st')

/-- Files a `WalkDir::new(p)` visit of the modelled filesystem yields: the
stored files whose path has `p` as a component-prefix. -/
def walkFiles (st : SFs) (p : SPath) : List SPath :=
  (st.filter (fun e => spfx p e.1)).map (fun e => e.1)

/-- Snapshot a list of files in order, threading the filesystem through the
blob writes. -/
def snapJobs (sha : List Nat → String) (sdir : SPath) :
    SFs → List SPath → Except McpErr (List (SPath × FileSnapshot) × SFs)
  | st, [] => .ok ([], st)
  | st, q :: rest =>
    match snapshot_file sha st sdir q with
    | .error e => .error e
    | .ok (fsnap, st') =>
      match snapJobs sha sdir st' rest with
      | .error e => .error e
      | .ok (l, st'') => .ok ((q, fsnap) :: l, st'')

/-- The per-path loop of `SnapshotManager::create` (`snapshot.rs` lines
82-95): a regular file is snapshotted directly, anything else is walked
(an empty walk for paths that do not exist). -/
def createGo (sha : List Nat → String) (sdir : SPath) :
    SFs → List SPath → Except McpErr (List (SPath × FileSnapshot) × SFs)
  | st, [] => .ok ([], st)
  | st, p :: rest =>
    let jobs := if (fsLookup st p).isSome then [p] else walkFiles st p
    match snapJobs sha sdir st jobs with
    | .error e => .error e
    | .ok (l1, st1) =>
      match createGo sha sdir st1 rest with
      | .error e => .error e
      | .ok (l2, st2) => .ok (l1 ++ l2, st2)

/-- Model of `SnapshotManager::create` (`snapshot.rs` lines 74-109): mint
the snapshot directory `<base>/<id>`, capture the files, record the
snapshot in the in-memory index. -/
def create (sha : List Nat → String) (base_dir : SPath)
    (mgr : List (String × Snapshot)) (st : SFs) (id : String)
    (paths : List SPath) (label : String) :
    Except McpErr (Snapshot × List (String × Snapshot) × SFs) :=
  let snapshot_dir := base_dir ++ [id]
  match createGo sha snapshot_dir st paths with
  | .error e => .error e
  | .ok (files, st') =>
    let snapshot : Snapshot :=
      { id := id, label := label, paths := paths, files := files }
    .ok (snapshot, (id, snapshot) :: mgr, st')

/-- Lookup in the in-memory snapshot index. -/
def mgrLookup : List (String × Snapshot) → String → Option Snapshot
  | [], _ => none
  | (k, s) :: r, sid => if k = sid then some s else mgrLookup r sid

/-- The per-file loop of `SnapshotManager::restore` (`snapshot.rs` lines
140-158): filter by target prefix, read the blob, recreate the original
file. -/
def restoreGo (targets : Option (List SPath)) :
    List (SPath × FileSnapshot) → SFs → Except McpErr (List SPath × SFs)
  | [], st => .ok ([], st)
  | (original_path, fsnap) :: rest, st =>
    let should_restore := match targets with
      | some ts => ts.any (fun t => spfx t original_path)
      | none => true
    if should_restore then
      match fsLookup st fsnap.snapshot_path with
      | none => .error (.SnapshotError "blob read failed")
      | some content =>
        match restoreGo targets rest (fsWrite st original_path content) with
        | .error e => .error e
        | .ok (l, st') => .ok (original_path :: l, st')
    else
      restoreGo targets rest st

/-- Model of `SnapshotManager::restore` (`snapshot.rs` lines 133-161). -/
def restore (mgr : List (String × Snapshot)) (st : SFs) (snapshot_id : String)
    (target_paths : Option (List SPath)) : Except McpErr (List SPath × SFs) :=
  match mgrLookup mgr snapshot_id with
  | none => .error (.NotFound ("Snapshot '" ++ snapshot_id ++ "' not found"))
  | some snapshot => restoreGo target_paths snapshot.files st

/-! ## Snapshot lemmas -/

theorem fsLookup_fsEraseAll (st : SFs) (p q : SPath) (h : q ≠ p) :
    fsLookup (fsEraseAll st p) q = fsLookup st q := by
  induction st with
  | nil => rfl
  | cons e r ihr =>
    obtain ⟨k, c⟩ := e
    by_cases hk : k = p
    · subst hk
      rw [fsEraseAll, if_pos rfl, ihr, fsLookup, if_neg (fun he => h he.symm)]
    · rw [fsEraseAll, if_neg hk, fsLookup, fsLookup]
      by_cases hkq : k = q
      · rw [if_pos hkq, if_pos hkq]
      · rw [if_neg hkq, if_neg hkq, ihr]

theorem fsLookup_fsWrite_self (st : SFs) (p : SPath) (c : List Nat) :
    fsLookup (fsWrite st p c) p = some c := by
  rw [fsWrite, fsLookup, if_pos rfl]

theorem fsLookup_fsWrite_ne (st : SFs) (p : SPath) (c : List Nat) (q : SPath)
    (h : q ≠ p) : fsLookup (fsWrite st p c) q = fsLookup st q := by
  rw [fsWrite, fsLookup, if_neg (fun he => h he.symm), fsLookup_fsEraseAll st p q h]

theorem spfx_refl (p : SPath) : spfx p p = true := by
  induction p with
  | nil => rfl
  | cons a r ih => rw [spfx, if_pos rfl, ih]

theorem fsLookup_isSome_of_mem (st : SFs) (q : SPath) (c : List Nat)
    (h : (q, c) ∈ st) : (fsLookup st q).isSome := by
  induction st with
  | nil => cases h
  | cons e r ih =>
    obtain ⟨k, c'⟩ := e
    rw [fsLookup]
    by_cases hk : k = q
    · rw [if_pos hk]; rfl
    · rw [if_neg hk]
      rcases List.mem_cons.mp h with h1 | h2
      · exact absurd (congrArg Prod.fst h1).symm hk
      · exact ih h2

theorem walkFiles_mem (st : SFs) (p q : SPath) (h : q ∈ walkFiles st p) :
    spfx p q = true ∧ (fsLookup st q).isSome := by
  unfold walkFiles at h
  rw [List.mem_map] at h
  obtain ⟨e, he, rfl⟩ := h
  rw [List.mem_filter] at he
  exact ⟨he.2, fsLookup_isSome_of_mem st e.1 e.2 (by simpa using he.1)⟩

/-- A path that is not a blob path of the snapshot directory. -/
def NonBlob (sdir q : SPath) : Prop := ∀ s, q ≠ sdir ++ [s]

/-- The filesystem agrees with the pre-snapshot state away from the blob
directory. -/
def StEq (sdir : SPath) (st0 st : SFs) : Prop :=
  ∀ q, NonBlob sdir q → fsLookup st q = fsLookup st0 q

/-- Every blob present is named by the digest of its contents, and its
contents are the contents of some pre-snapshot file. -/
def BlobInv (sha : List Nat → String) (sdir : SPath) (st0 st : SFs) : Prop :=
  ∀ s c, fsLookup st (sdir ++ [s]) = some c →
    sha c = s ∧ ∃ q, fsLookup st0 q = some c

theorem snapshot_file_spec (sha : List Nat → String) (sdir : SPath)
    (st0 st : SFs) (q : SPath) (c : List Nat)
    (hq : NonBlob sdir q) (hst : StEq sdir st0 st)
    (hbi : BlobInv sha sdir st0 st) (hc : fsLookup st0 q = some c) :
    ∃ st', snapshot_file sha st sdir q =
      .ok ({ original_path := q, snapshot_path := sdir ++ [sha c],
             sha256 := sha c, size := c.length }, st') ∧
      StEq sdir st0 st' ∧ BlobInv sha sdir st0 st' ∧
      (∀ b v, fsLookup st b = some v → fsLookup st' b = some v) ∧
      (fsLookup st' (sdir ++ [sha c])).isSome := by
  have hcur : fsLookup st q = some c := by rw [hst q hq, hc]
  by_cases hblob : (fsLookup st (sdir ++ [sha c])).isSome
  · refine ⟨st, ?_, hst, hbi, fun b v h => h, hblob⟩
    unfold snapshot_file
    rw [hcur]
    simp [hblob]
  · refine ⟨fsWrite st (sdir ++ [sha c]) c, ?_, ?_, ?_, ?_, ?_⟩
    · unfold snapshot_file
      rw [hcur]
      simp [hblob]
    · intro q' hq'
      rw [fsLookup_fsWrite_ne _ _ _ _ (hq' (sha c))]
      exact hst q' hq'
    · intro s c' hlk
      by_cases hs : (sdir ++ [s] : SPath) = sdir ++ [sha c]
      · have hs' : s = sha c := by simpa using hs
        rw [hs, fsLookup_fsWrite_self] at hlk
        obtain rfl : c = c' := Option.some.inj hlk
        exact ⟨hs'.symm, q, hc⟩
      · rw [fsLookup_fsWrite_ne _ _ _ _ hs] at hlk
        exact hbi s c' hlk
    · intro b v h
      by_cases hb : b = sdir ++ [sha c]
      · subst hb
        rw [h] at hblob
        simp at hblob
      · rw [fsLookup_fsWrite_ne _ _ _ _ hb]
        exact h
    · rw [fsLookup_fsWrite_self]
      rfl

theorem snapJobs_spec (sha : List Nat → String) (sdir : SPath) (st0 : SFs) :
    ∀ (jobs : List SPath) (st : SFs),
      StEq sdir st0 st → BlobInv sha sdir st0 st →
      (∀ q ∈ jobs, NonBlob sdir q ∧ ∃ c, fsLookup st0 q = some c) →
      ∃ l st1, snapJobs sha sdir st jobs = .ok (l, st1) ∧
        StEq sdir st0 st1 ∧ BlobInv sha sdir st0 st1 ∧
        (∀ b v, fsLookup st b = some v → fsLookup st1 b = some v) ∧
        (∀ e ∈ l, ∃ c, fsLookup st0 e.1 = some c ∧
          e.2 = { original_path := e.1, snapshot_path := sdir ++ [sha c],
                  sha256 := sha c, size := c.length } ∧
          NonBlob sdir e.1 ∧
          (fsLookup st1 (sdir ++ [sha c])).isSome) := by
  intro jobs
  induction jobs with
  | nil =>
    intro st hst hbi _
    exact ⟨[], st, rfl, hst, hbi, fun b v h => h, by simp⟩
  | cons q rest ih =>
    intro st hst hbi hjobs
    obtain ⟨hq, c, hc⟩ := hjobs q (List.mem_cons_self q rest)
    obtain ⟨st', heq, hst', hbi', hmono', hblob'⟩ :=
      snapshot_file_spec sha sdir st0 st q c hq hst hbi hc
    obtain ⟨l, st1, heq2, hst1, hbi1, hmono1, hl⟩ :=
      ih st' hst' hbi' (fun q' hq' => hjobs q' (List.mem_cons_of_mem _ hq'))
    refine ⟨(q, ⟨q, sdir ++ [sha c], sha c, c.length⟩) :: l, st1, ?_, hst1, hbi1,
      fun b v h => hmono1 _ _ (hmono' _ _ h), ?_⟩
    · simp only [snapJobs, heq, heq2]
    · intro e he
      rcases List.mem_cons.mp he with he1 | he2
      · subst he1
        refine ⟨c, hc, rfl, hq, ?_⟩
        obtain ⟨v, hv⟩ := Option.isSome_iff_exists.mp hblob'
        exact Option.isSome_iff_exists.mpr ⟨v, hmono1 _ _ hv⟩
      · exact hl e he2

theorem createGo_spec (sha : List Nat → String) (sdir : SPath) (st0 : SFs) :
    ∀ (paths : List SPath) (st : SFs),
      StEq sdir st0 st → BlobInv sha sdir st0 st →
      (∀ p ∈ paths, ∀ s, spfx p (sdir ++ [s]) = false) →
      ∃ l st1, createGo sha sdir st paths = .ok (l, st1) ∧
        StEq sdir st0 st1 ∧ BlobInv sha sdir st0 st1 ∧
        (∀ b v, fsLookup st b = some v → fsLookup st1 b = some v) ∧
        (∀ e ∈ l, ∃ c, fsLookup st0 e.1 = some c ∧
          e.2 = { original_path := e.1, snapshot_path := sdir ++ [sha c],
                  sha256 := sha c, size := c.length } ∧
          NonBlob sdir e.1 ∧
          (fsLookup st1 (sdir ++ [sha c])).isSome) := by
  intro paths
  induction paths with
  | nil =>
    intro st hst hbi _
    exact ⟨[], st, rfl, hst, hbi, fun b v h => h, by simp⟩
  | cons p rest ih =>
    intro st hst hbi hpaths
    have hp := hpaths p (List.mem_cons_self p rest)
    have hjobs : ∀ q ∈ (if (fsLookup st p).isSome then [p] else walkFiles st p),
        NonBlob sdir q ∧ ∃ c, fsLookup st0 q = some c := by
      intro q hqmem
      by_cases hf : (fsLookup st p).isSome
      · rw [if_pos hf] at hqmem
        have hqp : q = p := by simpa using hqmem
        subst hqp
        have hnb : NonBlob sdir q := by
          intro s he
          have h1 := hp s
          rw [he, spfx_refl] at h1
          cases h1
        refine ⟨hnb, ?_⟩
        rw [← hst q hnb]
        exact Option.isSome_iff_exists.mp hf
      · rw [if_neg hf] at hqmem
        obtain ⟨hpfx, hsome⟩ := walkFiles_mem st p q hqmem
        have hnb : NonBlob sdir q := by
          intro s he
          have h1 := hp s
          rw [← he, hpfx] at h1
          cases h1
        refine ⟨hnb, ?_⟩
        rw [← hst q hnb]
        exact Option.isSome_iff_exists.mp hsome
    obtain ⟨l1, st1, heq1, hst1, hbi1, hmono1, hl1⟩ :=
      snapJobs_spec sha sdir st0 _ st hst hbi hjobs
    obtain ⟨l2, st2, heq2, hst2, hbi2, hmono2, hl2⟩ :=
      ih st1 hst1 hbi1 (fun p' hp' => hpaths p' (List.mem_cons_of_mem _ hp'))
    refine ⟨l1 ++ l2, st2, ?_, hst2, hbi2,
      fun b v h => hmono2 _ _ (hmono1 _ _ h), ?_⟩
    · simp only [createGo, heq1, heq2]
    · intro e he
      rcases List.mem_append.mp he with h1 | h2
      · obtain ⟨c, hc0, hefs, hnb, hsome⟩ := hl1 e h1
        refine ⟨c, hc0, hefs, hnb, ?_⟩
        obtain ⟨v, hv⟩ := Option.isSome_iff_exists.mp hsome
        exact Option.isSome_iff_exists.mpr ⟨v, hmono2 _ _ hv⟩
      · exact hl2 e h2

/-- C7: every `FileSnapshot` recorded by `create` refers to a blob that
exists in the post-create filesystem, whose digest equals the stored
`sha256` field and whose byte length equals the stored `size` field.
The hypotheses say that the fresh snapshot directory is empty, that no
input path reaches into the snapshot directory, and that the digest is
collision-free on the stored file contents. -/
theorem create_snapshot_integrity
    (sha : List Nat → String) (base : SPath) (mgr : List (String × Snapshot))
    (st0 : SFs) (id : String) (paths : List SPath) (label : String)
    (snap : Snapshot) (mgr' : List (String × Snapshot)) (st1 : SFs)
    (hfresh : ∀ s, fsLookup st0 ((base ++ [id]) ++ [s]) = none)
    (hpaths : ∀ p ∈ paths, ∀ s, spfx p ((base ++ [id]) ++ [s]) = false)
    (hcoll : ∀ q1 c1 q2 c2, fsLookup st0 q1 = some c1 →
      fsLookup st0 q2 = some c2 → sha c1 = sha c2 → c1 = c2)
    (hc : create sha base mgr st0 id paths label = .ok (snap, mgr', st1)) :
    ∀ e ∈ snap.files, ∃ cblob,
      fsLookup st1 e.2.snapshot_path = some cblob ∧
      sha cblob = e.2.sha256 ∧ cblob.length = e.2.size := by
  obtain ⟨l, st1', hgo, hst1, hbi1, hmono1, hl⟩ :=
    createGo_spec sha (base ++ [id]) st0 paths st0 (fun q _ => rfl)
      (fun s c hlk => by rw [hfresh s] at hlk; cases hlk) hpaths
  have hceq : create sha base mgr st0 id paths label =
      .ok (⟨id, label, paths, l⟩, (id, ⟨id, label, paths, l⟩) :: mgr, st1') := by
    simp only [create, hgo]
  have hpay := Except.ok.inj (hceq.symm.trans hc)
  injection hpay with h1 hrest1
  injection hrest1 with h2 h3
  subst h1
  subst h2
  subst h3
  intro e he
  obtain ⟨c, hc0, hefs, hnb, hsome⟩ := hl e he
  obtain ⟨cb, hv⟩ := Option.isSome_iff_exists.mp hsome
  obtain ⟨hsha, q0, hq0⟩ := hbi1 (sha c) cb hv
  have hcb : cb = c := hcoll q0 cb e.1 c hq0 hc0 hsha
  subst hcb
  refine ⟨cb, ?_, ?_, ?_⟩
  · rw [hefs]
    exact hv
  · rw [hefs]
  · rw [hefs]

theorem restoreGo_spec (sdir : SPath) (st0 : SFs) :
    ∀ (entries : List (SPath × FileSnapshot)) (st : SFs),
      (∀ e ∈ entries, ∃ c, fsLookup st0 e.1 = some c ∧
        fsLookup st e.2.snapshot_path = some c ∧ NonBlob sdir e.1 ∧
        ∃ s, e.2.snapshot_path = sdir ++ [s]) →
      ∃ l st2, restoreGo none entries st = .ok (l, st2) ∧
        (∀ q c0, fsLookup st0 q = some c0 → (∃ e ∈ entries, e.1 = q) →
          fsLookup st2 q = some c0) ∧
        (∀ q, (∀ e ∈ entries, e.1 ≠ q) → fsLookup st2 q = fsLookup st q) := by
  intro entries
  induction entries with
  | nil =>
    intro st _
    refine ⟨[], st, rfl, ?_, fun q _ => rfl⟩
    rintro q c0 _ ⟨e, he, _⟩
    cases he
  | cons ef rest ih =>
    obtain ⟨orig, fsnap⟩ := ef
    intro st hyp
    obtain ⟨c, h0, hblob, hnb, s, hsp⟩ := hyp (orig, fsnap) (List.mem_cons_self _ _)
    have hyp' : ∀ e ∈ rest, ∃ c', fsLookup st0 e.1 = some c' ∧
        fsLookup (fsWrite st orig c) e.2.snapshot_path = some c' ∧
        NonBlob sdir e.1 ∧ ∃ s', e.2.snapshot_path = sdir ++ [s'] := by
      intro e he
      obtain ⟨c', h0', hblob', hnb', s', hsp'⟩ := hyp e (List.mem_cons_of_mem _ he)
      refine ⟨c', h0', ?_, hnb', s', hsp'⟩
      rw [fsLookup_fsWrite_ne]
      · exact hblob'
      · rw [hsp']
        intro hcontra
        exact hnb s' hcontra.symm
    obtain ⟨l, st2, heqr, hA, hB⟩ := ih (fsWrite st orig c) hyp'
    refine ⟨orig :: l, st2, ?_, ?_, ?_⟩
    · simp only [restoreGo, hblob, heqr]
      rw [if_pos trivial]
    · intro q c0 h0q hex
      by_cases hrest : ∃ e ∈ rest, e.1 = q
      · exact hA q c0 h0q hrest
      · obtain ⟨e, he, heq1⟩ := hex
        rcases List.mem_cons.mp he with he1 | he2
        · have hq : q = orig := by rw [← heq1, he1]
          subst hq
          have hB' := hB q (fun e' he' h' => hrest ⟨e', he', h'⟩)
          rw [hB', fsLookup_fsWrite_self]
          rw [h0] at h0q
          rw [Option.some.inj h0q]
        · exact absurd ⟨e, he2, heq1⟩ hrest
    · intro q hne
      have hne' : ∀ e ∈ rest, e.1 ≠ q := fun e he => hne e (List.mem_cons_of_mem _ he)
      have hqne : q ≠ orig :=
        fun heq1 => hne (orig, fsnap) (List.mem_cons_self _ _) heq1.symm
      rw [hB q hne', fsLookup_fsWrite_ne st orig c q hqne]

/-- C6: after `create` captures a set of files, any mutation of the
filesystem that leaves the snapshot blobs intact can be undone:
`restore` on the recorded snapshot id with no target filter succeeds and
puts every captured file back to its byte contents at snapshot time.
Hypotheses as in `create_snapshot_integrity`. -/
theorem snapshot_restore_roundtrip
    (sha : List Nat → String) (base : SPath) (mgr : List (String × Snapshot))
    (st0 : SFs) (id : String) (paths : List SPath) (label : String)
    (snap : Snapshot) (mgr' : List (String × Snapshot)) (st1 st' : SFs)
    (hfresh : ∀ s, fsLookup st0 ((base ++ [id]) ++ [s]) = none)
    (hpaths : ∀ p ∈ paths, ∀ s, spfx p ((base ++ [id]) ++ [s]) = false)
    (hcoll : ∀ q1 c1 q2 c2, fsLookup st0 q1 = some c1 →
      fsLookup st0 q2 = some c2 → sha c1 = sha c2 → c1 = c2)
    (hc : create sha base mgr st0 id paths label = .ok (snap, mgr', st1))
    (hmut : ∀ e ∈ snap.files,
      fsLookup st' e.2.snapshot_path = fsLookup st1 e.2.snapshot_path) :
    ∃ restored st2, restore mgr' st' snap.id none = .ok (restored, st2) ∧
      ∀ e ∈ snap.files, ∃ c,
        fsLookup st0 e.1 = some c ∧ fsLookup st2 e.1 = some c := by
  obtain ⟨l, st1', hgo, hst1, hbi1, hmono1, hl⟩ :=
    createGo_spec sha (base ++ [id]) st0 paths st0 (fun q _ => rfl)
      (fun s c hlk => by rw [hfresh s] at hlk; cases hlk) hpaths
  have hceq : create sha base mgr st0 id paths label =
      .ok (⟨id, label, paths, l⟩, (id, ⟨id, label, paths, l⟩) :: mgr, st1') := by
    simp only [create, hgo]
  have hpay := Except.ok.inj (hceq.symm.trans hc)
  injection hpay with h1 hrest1
  injection hrest1 with h2 h3
  subst h1
  subst h2
  subst h3
  have hyp : ∀ e ∈ (Snapshot.mk id label paths l).files, ∃ c,
      fsLookup st0 e.1 = some c ∧ fsLookup st' e.2.snapshot_path = some c ∧
      NonBlob (base ++ [id]) e.1 ∧
      ∃ s, e.2.snapshot_path = (base ++ [id]) ++ [s] := by
    intro e he
    obtain ⟨c, hc0, hefs, hnb, hsome⟩ := hl e he
    obtain ⟨cb, hv⟩ := Option.isSome_iff_exists.mp hsome
    obtain ⟨hsha, q0, hq0⟩ := hbi1 (sha c) cb hv
    have hcb : cb = c := hcoll q0 cb e.1 c hq0 hc0 hsha
    subst hcb
    refine ⟨cb, hc0, ?_, hnb, sha cb, by rw [hefs]⟩
    rw [hmut e he, hefs]
    exact hv
  obtain ⟨lr, st2, heqr, hA, hB⟩ :=
    restoreGo_spec (base ++ [id]) st0 (Snapshot.mk id label paths l).files st' hyp
  refine ⟨lr, st2, ?_, ?_⟩
  · have hml : mgrLookup ((id, Snapshot.mk id label paths l) :: mgr)
        (Snapshot.mk id label paths l).id = some (Snapshot.mk id label paths l) := by
      simp [mgrLookup]
    simp only [restore, hml, heqr]
  · intro e he
    obtain ⟨c, hc0, _, _, _⟩ := hyp e he
    exact ⟨c, hc0, hA e.1 c hc0 ⟨e, he, rfl⟩⟩

instance : DecidableEq (Snapshot × List (String × Snapshot) × SFs) :=
  instDecidableEqProd

/-! ## Concrete snapshot scenario for the witnesses -/

/-- The captured file of the scenario. -/
def pW : SPath := ["home", "a.txt"]

/-- Pre-snapshot filesystem: one regular file containing `"hi"`. -/
def st0W : SFs := [(pW, [104, 105])]

/-- Digest stub of the scenario (collision-freedom is trivial with a single
stored content). -/
def shaW : List Nat → String := fun _ => "h"

/-- Snapshot base directory of the scenario. -/
def baseW : SPath := ["base"]

/-- The file snapshot `create` records for `pW`. -/
def fsnapW : FileSnapshot := ⟨pW, ["base", "s1", "h"], "h", 2⟩

/-- The snapshot `create` returns. -/
def snapW : Snapshot := ⟨"s1", "L", [pW], [(pW, fsnapW)]⟩

/-- The snapshot index after `create`. -/
def mgrW : List (String × Snapshot) := [("s1", snapW)]

/-- The filesystem after `create`: the blob plus the untouched file. -/
def st1W : SFs := [(["base", "s1", "h"], [104, 105]), (pW, [104, 105])]

/-- The mutation: overwrite the captured file with `[0]`. -/
def stMutW : SFs := fsWrite st1W pW [0]

/-- The filesystem after `restore`. -/
def st2W : SFs := [(pW, [104, 105]), (["base", "s1", "h"], [104, 105])]

theorem st0W_fresh : ∀ s, fsLookup st0W ((baseW ++ ["s1"]) ++ [s]) = none := by
  intro s
  simp [st0W, fsLookup, pW, baseW]

theorem pW_paths : ∀ p ∈ [pW], ∀ s, spfx p ((baseW ++ ["s1"]) ++ [s]) = false := by
  intro p hp s
  have hppW : p = pW := by simpa using hp
  subst hppW
  simp [spfx, pW, baseW]

theorem st0W_collfree : ∀ q1 c1 q2 c2, fsLookup st0W q1 = some c1 →
    fsLookup st0W q2 = some c2 → shaW c1 = shaW c2 → c1 = c2 := by
  intro q1 c1 q2 c2 h1 h2 _
  simp only [st0W, fsLookup] at h1 h2
  split at h1
  · split at h2
    · rw [← Option.some.inj h1, ← Option.some.inj h2]
    · cases h2
  · cases h1

/-- Witness for C7: in the concrete scenario the recorded blob exists with
the original contents, hash and size. -/
theorem create_snapshot_integrity_witness :
    fsLookup st1W ["base", "s1", "h"] = some [104, 105] ∧
    shaW [104, 105] = "h" ∧ ([104, 105] : List Nat).length = 2 := by
  obtain ⟨cb, h1, h2, h3⟩ := create_snapshot_integrity shaW baseW [] st0W "s1" [pW] "L"
    snapW mgrW st1W st0W_fresh pW_paths st0W_collfree (by decide) (pW, fsnapW) (by decide)
  have h0 : fsLookup st1W fsnapW.snapshot_path = some [104, 105] := by decide
  have hcb := Option.some.inj (h0.symm.trans h1)
  subst hcb
  exact ⟨h1, h2, h3⟩

/-- Witness for C6: create, mutate the captured file, restore with no
filter; the file is back to its snapshot-time bytes. -/
theorem snapshot_restore_roundtrip_witness :
    fsLookup stMutW pW = some [0] ∧
    fsLookup st0W pW = some [104, 105] ∧
    restore mgrW stMutW "s1" none = .ok ([pW], st2W) ∧
    fsLookup st2W pW = some [104, 105] := by
  obtain ⟨restored, st2, hres, hall⟩ := snapshot_restore_roundtrip shaW baseW [] st0W
    "s1" [pW] "L" snapW mgrW st1W stMutW st0W_fresh pW_paths st0W_collfree
    (by decide) (by decide)
  obtain ⟨c, hc0, hc2⟩ := hall (pW, fsnapW) (by decide)
  have h0 : fsLookup st0W pW = some [104, 105] := by decide
  have hcfix := Option.some.inj (h0.symm.trans hc0)
  subst hcfix
  have hcalc : restore mgrW stMutW snapW.id none = .ok ([pW], st2W) := by decide
  have hpair := Except.ok.inj (hcalc.symm.trans hres)
  injection hpair with hlr hst
  subst hst
  exact ⟨by decide, h0, hcalc, hc2⟩
